import Mathlib

/-!
Verification of the PDF editing core (text-block model, layout mapper,
font detection, rendering pipeline, editor orchestration, spell utilities)
against its natural-language specification.

The Python source is shallowly embedded: page coordinates and font sizes
(Python floats holding small exact decimals in every code path the claims
touch) are modelled as rationals; Python strings are Lean strings with
character-level operations (ASCII case folding, as exercised by the code);
Python dicts, which preserve insertion order, are modelled as association
lists; fallible operations (out-of-range page access raising the engine's
IndexError) return Except; the drawing commands issued to the PDF engine
are recorded as an explicit command trace.
-/

namespace Pdf

/-! ## String primitives (Python `str` operations used by the core) -/

/-- Python `s.lower()` (ASCII case folding, character by character). -/
def pyLower (s : String) : String :=
  (s.toList.map Char.toLower).asString

/-- Python `s.upper()`. -/
def pyUpper (s : String) : String :=
  (s.toList.map Char.toUpper).asString

/-- `needle` occurs as a contiguous sublist of the second argument. -/
def listIsInfixOf (needle : List Char) : List Char → Bool
  | [] => needle.isEmpty
  | c :: rest => needle.isPrefixOf (c :: rest) || listIsInfixOf needle rest

/-- Python `needle in hay` on strings (substring containment). -/
def strContains (hay needle : String) : Bool :=
  listIsInfixOf needle.toList hay.toList

/-- Python `word.isalpha()`: nonempty and every character a letter. -/
def pyIsAlpha (s : String) : Bool :=
  !s.isEmpty && s.toList.all Char.isAlpha

/-- Python `word.isupper()`: at least one cased character and no lowercase one. -/
def pyIsUpper (s : String) : Bool :=
  s.toList.any Char.isAlpha && s.toList.all (fun c => !c.isLower)

/-- Python `word.capitalize()`: first character uppercased, the rest lowercased. -/
def pyCapitalize (s : String) : String :=
  match s.toList with
  | [] => ""
  | c :: cs => (c.toUpper :: cs.map Char.toLower).asString

/-! ## TextBlock (src/src/extraction/text_extractor.py)

`TextBlock` is a plain dataclass: construction stores the fields as given,
with no validation, rejection or clamping of the bounding box. -/

/-- One extracted text run (dataclass `TextBlock`). -/
structure TextBlock where
  text : String
  x0 : ℚ
  y0 : ℚ
  x1 : ℚ
  y1 : ℚ
  font_name : String
  font_size : ℚ
  font_flags : Nat
  color : ℚ × ℚ × ℚ
  page_number : Nat
  block_number : Nat
  line_number : Nat
deriving DecidableEq

/-- Property `TextBlock.width`. -/
def TextBlock.width (b : TextBlock) : ℚ := b.x1 - b.x0

/-- Property `TextBlock.height`. -/
def TextBlock.height (b : TextBlock) : ℚ := b.y1 - b.y0

/-- Property `TextBlock.position`. -/
def TextBlock.position (b : TextBlock) : ℚ × ℚ := (b.x0, b.y0)

/-! ## LayoutMapper (src/src/layout/layout_mapper.py) -/

/-- A spatial cluster of blocks (dataclass `LayoutRegion`). -/
structure LayoutRegion where
  x0 : ℚ
  y0 : ℚ
  x1 : ℚ
  y1 : ℚ
  page_number : Nat
  text_blocks : List TextBlock
deriving DecidableEq

/-- The bounding box of a region, as a tuple. -/
def regionBox (r : LayoutRegion) : ℚ × ℚ × ℚ × ℚ := (r.x0, r.y0, r.x1, r.y1)

/-- `LayoutMapper._is_block_in_region` with its tolerance argument explicit
(the Python default is 5.0 and no caller overrides it). -/
def isBlockInRegion (b : TextBlock) (r : LayoutRegion) (tol : ℚ) : Bool :=
  |b.x0 - r.x0| < tol && |b.x1 - r.x1| < tol &&
    r.y0 - tol ≤ b.y0 && b.y1 ≤ r.y1 + tol

/-- The region freshly created for a block that matched no existing region:
its box is the block's box and its sole member is the block. -/
def mkRegion (b : TextBlock) : LayoutRegion :=
  ⟨b.x0, b.y0, b.x1, b.y1, b.page_number, [b]⟩

/-- A region with one more member; the box fields are untouched. -/
def appendMember (r : LayoutRegion) (b : TextBlock) : LayoutRegion :=
  { r with text_blocks := r.text_blocks ++ [b] }

/-- The inner loop of `add_text_blocks` for one block on one page's region
list: append to the first matching region, else append a fresh region. -/
def insertBlock : List LayoutRegion → TextBlock → List LayoutRegion
  | [], b => [mkRegion b]
  | r :: rs, b =>
      if isBlockInRegion b r 5 then appendMember r b :: rs
      else r :: insertBlock rs b

/-- `LayoutMapper.regions`: a Python dict from page number to region list,
modelled as an insertion-ordered association list. -/
abbrev MapperState : Type := List (Nat × List LayoutRegion)

/-- Dict read with default `[]` (`get_regions_on_page`). -/
def getRegions : MapperState → Nat → List LayoutRegion
  | [], _ => []
  | (q, rs) :: t, p => if q = p then rs else getRegions t p

/-- Dict key-membership test. -/
def hasPage : MapperState → Nat → Bool
  | [], _ => false
  | (q, _) :: t, p => q == p || hasPage t p

/-- Dict write to an existing key, or append of a new key. -/
def setRegions : MapperState → Nat → List LayoutRegion → MapperState
  | [], p, rs => [(p, rs)]
  | (q, qs) :: t, p, rs =>
      if q = p then (p, rs) :: t else (q, qs) :: setRegions t p rs

/-- `if block.page_number not in self.regions: self.regions[page] = []`. -/
def ensurePage (st : MapperState) (p : Nat) : MapperState :=
  if hasPage st p then st else st ++ [(p, [])]

/-- One iteration of the `add_text_blocks` loop. -/
def addBlock (st : MapperState) (b : TextBlock) : MapperState :=
  let st' := ensurePage st b.page_number
  setRegions st' b.page_number (insertBlock (getRegions st' b.page_number) b)

/-- `LayoutMapper.add_text_blocks`. -/
def addTextBlocks (st : MapperState) (bs : List TextBlock) : MapperState :=
  bs.foldl addBlock st

/-- `LayoutMapper.find_blocks_by_text`: case-insensitive substring match,
scanned over the requested page (or all pages in dict order), in
region-then-member order. -/
def findBlocksByText (st : MapperState) (search : String) :
    Option Nat → List TextBlock
  | some p =>
      ((getRegions st p).map
        (fun r => r.text_blocks.filter
          (fun b => strContains (pyLower b.text) (pyLower search)))).flatten
  | none =>
      ((st.map Prod.fst).map
        (fun p => ((getRegions st p).map
          (fun r => r.text_blocks.filter
            (fun b => strContains (pyLower b.text) (pyLower search)))).flatten)).flatten

/-- Alignment enum. -/
inductive Alignment where
  | LEFT
  | CENTER
  | RIGHT
  | JUSTIFIED
deriving DecidableEq

/-- `LayoutMapper.detect_alignment`. -/
def detectAlignment (text_blocks : List TextBlock) (page_width : ℚ) :
    Alignment :=
  if text_blocks.isEmpty then .LEFT
  else
    let n : ℚ := text_blocks.length
    let avg_x0 := (text_blocks.map TextBlock.x0).sum / n
    let avg_x1 := (text_blocks.map TextBlock.x1).sum / n
    let center_x := page_width / 2
    if |(avg_x0 + avg_x1) / 2 - center_x| < 20 then .CENTER
    else if avg_x1 > page_width * 0.8 then .RIGHT
    else if avg_x1 - avg_x0 > page_width * 0.7 then .JUSTIFIED
    else .LEFT

/-- Stable insertion of a block into a y0-sorted list (an element is placed
before the first element whose `y0` it does not exceed strictly from
below; equal keys keep the earlier element first). -/
def insertByY0 (a : TextBlock) : List TextBlock → List TextBlock
  | [] => [a]
  | b :: t => if a.y0 ≤ b.y0 then a :: b :: t else b :: insertByY0 a t

/-- Python `sorted(text_blocks, key=lambda b: b.y0)`: a stable sort by the
top coordinate, modelled as stable insertion sort. -/
def sortByY0 : List TextBlock → List TextBlock
  | [] => []
  | a :: t => insertByY0 a (sortByY0 t)

/-- The consecutive spacings `next.y0 - prev.y1` of a list of blocks. -/
def consecutiveGaps : List TextBlock → List ℚ
  | [] => []
  | [_] => []
  | a :: b :: t => (b.y0 - a.y1) :: consecutiveGaps (b :: t)

/-- `LayoutMapper.calculate_line_spacing`. -/
def calculateLineSpacing (text_blocks : List TextBlock) : ℚ :=
  if text_blocks.length < 2 then 0
  else
    let spacings := (consecutiveGaps (sortByY0 text_blocks)).filter (0 < ·)
    if spacings.isEmpty then 0 else spacings.sum / spacings.length

/-! ## FontDetector (src/src/font/font_detector.py) -/

/-- One text span as handed over by the PDF engine (text, font name, size,
flag word, colour). -/
structure Span where
  text : String
  font : String
  size : ℚ
  flags : Nat
  color : ℚ × ℚ × ℚ
deriving DecidableEq

/-- Dataclass `FontInfo`. -/
structure FontInfo where
  name : String
  size : ℚ
  flags : Nat
  is_bold : Bool
  is_italic : Bool
  is_monospace : Bool
  is_serif : Bool
  color : ℚ × ℚ × ℚ
deriving DecidableEq

/-- `FontInfo.from_span`: derived style booleans decoded from fixed bit
positions of the flag word (bit 4 bold, bit 1 italic, bit 0 monospace,
bit 3 serif). -/
def FontInfo.fromSpan (s : Span) : FontInfo :=
  ⟨s.font, s.size, s.flags,
    (s.flags &&& 16) != 0, (s.flags &&& 2) != 0,
    (s.flags &&& 1) != 0, (s.flags &&& 8) != 0, s.color⟩

/-- The identity key used by `get_dominant_font` and `get_unique_fonts`. -/
abbrev FontKey : Type := String × ℚ × Nat

/-- The key of a span. -/
def spanKey (s : Span) : FontKey := (s.font, s.size, s.flags)

/-- One iteration of the `font_counts` accumulation of
`get_dominant_font`: a missing key is appended with the current span's
`FontInfo` and count 0, then the span's character count is added. -/
def bumpFont : List (FontKey × Nat × FontInfo) → Span →
    List (FontKey × Nat × FontInfo)
  | [], s => [(spanKey s, s.text.length, FontInfo.fromSpan s)]
  | (k, c, fi) :: t, s =>
      if k = spanKey s then (k, c + s.text.length, fi) :: t
      else (k, c, fi) :: bumpFont t s

/-- The `font_counts` dict of `get_dominant_font` (insertion ordered). -/
def fontCounts (spans : List Span) : List (FontKey × Nat × FontInfo) :=
  spans.foldl bumpFont []

/-- Python `max(items, key=count)`: the first element attaining the maximal
count wins, a later element replaces the current best only when strictly
greater. -/
def pyMaxByCount (c : FontKey × Nat × FontInfo)
    (cs : List (FontKey × Nat × FontInfo)) : FontKey × Nat × FontInfo :=
  cs.foldl (fun best x => if best.2.1 < x.2.1 then x else best) c

/-- `FontDetector.get_dominant_font` over the spans in the requested scope
(order = document emission order). -/
def getDominantFont (spans : List Span) : Option FontInfo :=
  match fontCounts spans with
  | [] => none
  | c :: cs => some (pyMaxByCount c cs).2.2

/-! ## PDFRenderer and RenderOptions (src/src/rendering/pdf_renderer.py) -/

/-- Dataclass `RenderOptions`. -/
structure RenderOptions where
  font_name : String
  font_size : ℚ
  color : ℚ × ℚ × ℚ
  align : Nat
  overlay : Bool
deriving DecidableEq

/-- `RenderOptions()` with every field defaulted. -/
def defaultRenderOptions : RenderOptions := ⟨"helv", 12, (0, 0, 0), 0, true⟩

/-- The `font_map` dict literal shared by `from_font_info` and
`from_text_block`, in source order. -/
def fontMapTable : List (String × String) :=
  [("Times", "times"), ("TimesNewRoman", "times"), ("Helvetica", "helv"),
   ("Courier", "cour"), ("Symbol", "symb"), ("ZapfDingbats", "zadb")]

/-- The name-mapping loop: the first table key that occurs case-insensitively
inside the source font name selects the output identifier, default "helv". -/
def mapFontName (source : String) : String :=
  match fontMapTable.find?
      (fun kv => strContains (pyLower source) (pyLower kv.1)) with
  | some kv => kv.2
  | none => "helv"

/-- `RenderOptions.from_font_info` (align argument defaults to 0 in Python). -/
def RenderOptions.fromFontInfo (fi : FontInfo) (align : Nat) : RenderOptions :=
  ⟨mapFontName fi.name, fi.size, fi.color, align, true⟩

/-- `RenderOptions.from_text_block`. -/
def RenderOptions.fromTextBlock (b : TextBlock) (align : Nat) : RenderOptions :=
  ⟨mapFontName b.font_name, b.font_size, b.color, align, true⟩

/-- A drawing command issued to the PDF engine. -/
inductive Cmd where
  | drawRect (page : Nat) (rect : ℚ × ℚ × ℚ × ℚ) (color : ℚ × ℚ × ℚ)
      (fill : ℚ × ℚ × ℚ) (overlay : Bool)
  | insertText (page : Nat) (point : ℚ × ℚ) (text : String)
      (fontname : String) (fontsize : ℚ) (color : ℚ × ℚ × ℚ) (overlay : Bool)
deriving DecidableEq

/-- `document[i]` for an `n`-page document: Python-style indexing, negative
indices address pages from the end, anything outside `[-n, n)` raises
IndexError (modelled as `none`). -/
def resolvePage (n : Nat) (i : Int) : Option Nat :=
  if 0 ≤ i ∧ i < n then some i.toNat
  else if -(n : Int) ≤ i ∧ i < 0 then some ((n : Int) + i).toNat
  else none

/-- `PDFRenderer.insert_text` on an open `n`-page document: returns `false`
without drawing when `page ≥ n`, otherwise issues one point-anchored text
insertion (the engine's return code is modelled as success). -/
def rendererInsertText (n : Nat) (page : Int) (text : String) (x y : ℚ)
    (options : Option RenderOptions) : Except String (Bool × List Cmd) :=
  if (n : Int) ≤ page then .ok (false, [])
  else
    match resolvePage n page with
    | none => .error "page not in document"
    | some p =>
        let opts := options.getD defaultRenderOptions
        .ok (true, [.insertText p (x, y) text opts.font_name opts.font_size
          opts.color opts.overlay])

/-- `PDFRenderer.replace_text_block` on an open `n`-page document:
white cover rectangle over the block's box (overlay false), then
re-insertion at `(x0, y0 + font_size)`, with options resolved from the
block itself when none are given. -/
def replaceTextBlock (n : Nat) (b : TextBlock) (new_text : String)
    (options : Option RenderOptions) : Except String (Bool × List Cmd) :=
  match resolvePage n (b.page_number : Int) with
  | none => .error "page not in document"
  | some p => do
      let cover : Cmd :=
        .drawRect p (b.x0, b.y0, b.x1, b.y1) (1, 1, 1) (1, 1, 1) false
      let opts := match options with
        | none => RenderOptions.fromTextBlock b 0
        | some o => o
      let (ok, cmds) ← rendererInsertText n (b.page_number : Int) new_text
        b.x0 (b.y0 + b.font_size) (some opts)
      .ok (ok, cover :: cmds)

/-! ## TextExtractor page-scoped queries (src/src/extraction/text_extractor.py) -/

/-- `TextExtractor.get_page_dimensions`: a raw `document[page_number]`
access (IndexError for an out-of-range index), then the page's rect size. -/
def getPageDimensions (dims : List (ℚ × ℚ)) (page : Int) :
    Except String (ℚ × ℚ) :=
  match resolvePage dims.length page with
  | none => .error "page not in document"
  | some p => .ok (dims.getD p (0, 0))

/-- The page selection of `TextExtractor.extract_text_blocks(page)`:
`[self.document[page_number]]`, so an out-of-range index raises the
engine's IndexError; the per-page span-to-block conversion is keyed off the
resolved page's spans. -/
def extractTextBlocksPage (doc : List (List Span)) (page : Int) :
    Except String (List Span) :=
  match resolvePage doc.length page with
  | none => .error "page not in document"
  | some p => .ok (doc.getD p [])

/-! ## PDFEditor (src/src/pdf_editor.py) -/

/-- Python `x or d` on an optional float argument (`None` and `0.0` are
falsy). -/
def pyOrQ (v : Option ℚ) (d : ℚ) : ℚ :=
  match v with
  | none => d
  | some x => if x = 0 then d else x

/-- Python `x or d` on an optional string argument (`None` and `""` are
falsy). -/
def pyOrS (v : Option String) (d : String) : String :=
  match v with
  | none => d
  | some s => if s = "" then d else s

/-- The option-resolution logic of `PDFEditor.insert_text`, given the
page's dominant font (`None` when the page has no text): when a dominant
font exists and at least one of size/name is unspecified, the options come
from the dominant font, with only an explicit `font_size` overriding;
otherwise the defaults 12.0 / "helv" back up the given values. -/
def editorInsertTextOptions (dominant : Option FontInfo)
    (font_size : Option ℚ) (font_name : Option String) : RenderOptions :=
  match dominant with
  | some df =>
      if font_size = none ∨ font_name = none then
        let o := RenderOptions.fromFontInfo df 0
        match font_size with
        | some fs => { o with font_size := fs }
        | none => o
      else
        { defaultRenderOptions with
            font_size := pyOrQ font_size 12, font_name := pyOrS font_name "helv" }
  | none =>
      { defaultRenderOptions with
          font_size := pyOrQ font_size 12, font_name := pyOrS font_name "helv" }

/-- `PDFEditor.insert_text` as far as the drawing pipeline is concerned:
resolve the options, then call the renderer's `insert_text`. -/
def editorInsertText (n : Nat) (dominant : Option FontInfo) (page : Int)
    (text : String) (x y : ℚ) (font_size : Option ℚ)
    (font_name : Option String) : Except String (Bool × List Cmd) :=
  rendererInsertText n page text x y
    (some (editorInsertTextOptions dominant font_size font_name))

/-! ## Text utilities (src/src/utils/text_utils.py) -/

/-- Python `hay.replace("", new, cnt)`: `new` is inserted before every
character and once at the end, at most `cnt` times (a negative `cnt` is
unlimited). -/
def pyReplaceEmptyPat (new : List Char) : List Char → Int → List Char
  | [], cnt => if cnt = 0 then [] else new
  | c :: cs, cnt =>
      if cnt = 0 then c :: cs
      else new ++ c :: pyReplaceEmptyPat new cs (cnt - 1)

/-- Python `hay.replace(old, new, cnt)` for a nonempty pattern: scan left to
right, replace non-overlapping occurrences while the budget lasts (a
negative budget is unlimited). The recursion consumes at least one
character of the haystack per step, so the structural fuel never runs out
when it starts at `hay.length + 1`. -/
def pyReplaceAux (old new : List Char) : Nat → List Char → Int → List Char
  | 0, hay, _ => hay
  | fuel + 1, hay, cnt =>
      if !old.isEmpty && old.isPrefixOf hay && cnt != 0 then
        new ++ pyReplaceAux old new fuel (hay.drop old.length) (cnt - 1)
      else
        match hay with
        | [] => []
        | c :: cs => c :: pyReplaceAux old new fuel cs cnt

/-- Python `s.replace(old, new, cnt)`. -/
def pyReplace (s old new : String) (cnt : Int) : String :=
  if old.toList = [] then (pyReplaceEmptyPat new.toList s.toList cnt).asString
  else
    (pyReplaceAux old.toList new.toList (s.toList.length + 1) s.toList
      cnt).asString

/-- `TextModifier.replace_text`: `count = -1` replaces all occurrences,
otherwise the count is passed through to `str.replace`. -/
def textModifierReplaceText (original old_text new_text : String)
    (count : Int) : String :=
  if count = -1 then pyReplace original old_text new_text (-1)
  else pyReplace original old_text new_text count

/-- `PDFEditor.replace_text` against an `n`-page document: the blocks are
selected by `LayoutMapper.find_blocks_by_text`, the replacement inside a
block's text is Python `str.replace` (all occurrences), a block is
re-rendered only when the text changed, and the options passed down are
`from_text_block` when `preserve_style` and `None` otherwise; the count is
incremented for every re-rendered block. -/
def editorReplaceText (st : MapperState) (n : Nat)
    (old_text new_text : String) (page : Option Nat) (preserve_style : Bool) :
    Except String (Nat × List Cmd) :=
  (findBlocksByText st old_text page).foldlM
    (fun acc b =>
      let modified := pyReplace b.text old_text new_text (-1)
      if modified ≠ b.text then do
        let r ← replaceTextBlock n b modified
          (if preserve_style then some (RenderOptions.fromTextBlock b 0)
           else none)
        pure (acc.1 + 1, acc.2 ++ r.2)
      else pure acc)
    (0, [])

/-! ## SpellChecker (src/src/utils/text_utils.py)

The TextBlob collaborator is abstracted as an oracle `String → String`
(its `correct()` suggestion); the custom dictionary is the stored set of
words, membership being tested against the lowercased query. -/

/-- `SpellChecker.check_word`. -/
def checkWord (oracle : String → String) (dict : List String)
    (word : String) : Bool :=
  if dict.contains (pyLower word) then true
  else if !pyIsAlpha word then true
  else pyLower word == pyLower (oracle word)

/-- Python `word[0].isupper()` guarded by nonemptiness. -/
def pyStartsUpper (s : String) : Bool :=
  match s.toList with
  | [] => false
  | c :: _ => c.isUpper

/-- `SpellChecker.correct_word`. -/
def correctWord (oracle : String → String) (dict : List String)
    (word : String) : String :=
  if dict.contains (pyLower word) then word
  else if !pyIsAlpha word then word
  else
    let corrected := oracle word
    if pyIsUpper word then pyUpper corrected
    else if pyStartsUpper word then pyCapitalize corrected
    else corrected

/-- A regex `\w` character. -/
def wordChar (c : Char) : Bool := c.isAlphanum || c == '_'

/-- `dropWhile` never lengthens a list (termination helper). -/
theorem dropWhileLenLe (p : Char → Bool) (l : List Char) :
    (l.dropWhile p).length ≤ l.length := by
  induction l with
  | nil => simp
  | cons c t ih =>
    rw [List.dropWhile_cons]
    split
    · exact le_trans ih (Nat.le_succ _)
    · exact le_refl _

/-- The `re.finditer` of `check_text`: the maximal runs of word characters,
with their start/end offsets. Each step consumes at least one character,
so the structural fuel never runs out when it starts above the input
length. -/
def tokenizeAux : Nat → List Char → Nat → List (String × Nat × Nat)
  | 0, _, _ => []
  | _ + 1, [], _ => []
  | fuel + 1, c :: rest, i =>
      if wordChar c then
        let run := (c :: rest).takeWhile wordChar
        (run.asString, i, i + run.length) ::
          tokenizeAux fuel ((c :: rest).dropWhile wordChar) (i + run.length)
      else tokenizeAux fuel rest (i + 1)

/-- The tokens of a text, in order. -/
def pyTokens (text : String) : List (String × Nat × Nat) :=
  tokenizeAux (text.toList.length + 1) text.toList 0

/-- `SpellChecker.check_text`: the tokens failing `check_word`, with their
offsets. -/
def checkText (oracle : String → String) (dict : List String)
    (text : String) : List (String × Nat × Nat) :=
  (pyTokens text).filter (fun m => !checkWord oracle dict m.1)

/-- The `re.sub` of `correct_text`: every maximal word-character run is
replaced by its `correct_word` image, other characters are kept. Fuel as
in `tokenizeAux`. -/
def correctTextAux (oracle : String → String) (dict : List String) :
    Nat → List Char → List Char
  | 0, cs => cs
  | _ + 1, [] => []
  | fuel + 1, c :: rest =>
      if wordChar c then
        (correctWord oracle dict
            ((c :: rest).takeWhile wordChar).asString).toList
          ++ correctTextAux oracle dict fuel ((c :: rest).dropWhile wordChar)
      else c :: correctTextAux oracle dict fuel rest

/-- `SpellChecker.correct_text`. -/
def correctText (oracle : String → String) (dict : List String)
    (text : String) : String :=
  (correctTextAux oracle dict (text.toList.length + 1) text.toList).asString

/-! ## Claim C7 — TextBlock derived geometry -/

/-- A dataclass instance with `x1 < x0` and `y1 < y0`: nothing in the
constructor rejects or clamps it. -/
def malformedBlock : TextBlock :=
  ⟨"x", 10, 10, 5, 5, "Helvetica", 12, 0, (0, 0, 0), 0, 0, 0⟩

/-- C7 counterexample: a `TextBlock` whose bounding box has `x1 < x0` and
`y1 < y0` is constructed as-is (no rejection, no clamping), and its derived
width and height are negative. -/
theorem C7_counterexample :
    malformedBlock.x1 < malformedBlock.x0 ∧
    malformedBlock.y1 < malformedBlock.y0 ∧
    malformedBlock.width < 0 ∧ malformedBlock.height < 0 := by
  refine ⟨?_, ?_, ?_, ?_⟩ <;>
    norm_num [malformedBlock, TextBlock.width, TextBlock.height]

/-- C7 (amended): for every `TextBlock`, `width = x1 - x0`,
`height = y1 - y0` and `position = (x0, y0)`; width and height are
nonnegative exactly on well-formed boxes (`x0 ≤ x1`, `y0 ≤ y1`) — the
constructor performs no validation, so a malformed box yields negative
derived geometry. -/
theorem C7_geometry (b : TextBlock) :
    b.width = b.x1 - b.x0 ∧ b.height = b.y1 - b.y0 ∧
    b.position = (b.x0, b.y0) ∧
    (b.x0 ≤ b.x1 → 0 ≤ b.width) ∧ (b.y0 ≤ b.y1 → 0 ≤ b.height) :=
  ⟨rfl, rfl, rfl,
   fun h => by simpa [TextBlock.width, sub_nonneg] using h,
   fun h => by simpa [TextBlock.height, sub_nonneg] using h⟩

/-- A well-formed block used to instantiate hypotheses concretely. -/
def okBlock : TextBlock :=
  ⟨"hello", 72, 100, 150, 115, "Helvetica", 12, 0, (0, 0, 0), 0, 0, 0⟩

/-- C7 witness: the geometry theorem applied at a concrete block. -/
theorem C7_geometry_witness : 0 ≤ okBlock.width ∧ 0 ≤ okBlock.height :=
  ⟨(C7_geometry okBlock).2.2.2.1 (by norm_num [okBlock]),
   (C7_geometry okBlock).2.2.2.2 (by norm_num [okBlock])⟩

/-! ## Claim C2 — detect_alignment -/

/-- `detect_alignment` as the specification words it: mean x0 and mean x1
over the set, then CENTER / RIGHT / JUSTIFIED / LEFT checked in exactly
that order. -/
def specAlignment (blocks : List TextBlock) (w : ℚ) : Alignment :=
  let meanX0 := (blocks.map TextBlock.x0).sum / blocks.length
  let meanX1 := (blocks.map TextBlock.x1).sum / blocks.length
  if |(meanX0 + meanX1) / 2 - w / 2| < 20 then .CENTER
  else if meanX1 > 0.8 * w then .RIGHT
  else if meanX1 - meanX0 > 0.7 * w then .JUSTIFIED
  else .LEFT

/-- A single block whose right edge sits near 540. -/
def rightishBlock : TextBlock :=
  ⟨"r", 500, 72, 540, 84, "Helvetica", 12, 0, (0, 0, 0), 0, 0, 0⟩

/-- A single block spanning x = 72 .. 150. -/
def leftishBlock : TextBlock :=
  ⟨"l", 72, 72, 150, 84, "Helvetica", 12, 0, (0, 0, 0), 0, 0, 0⟩

/-- C2: on every non-empty block list `detect_alignment` is exactly the
spec's ordered rule over the mean x0/x1, and on page width 612 a single
block with x1 = 540 is classified RIGHT while a single block with
x0 = 72, x1 = 150 is classified LEFT. -/
theorem C2_detect_alignment :
    (∀ (blocks : List TextBlock) (w : ℚ), blocks ≠ [] →
        detectAlignment blocks w = specAlignment blocks w) ∧
    detectAlignment [rightishBlock] 612 = .RIGHT ∧
    detectAlignment [leftishBlock] 612 = .LEFT := by
  refine ⟨fun blocks w h => ?_, ?_, ?_⟩
  · simp only [detectAlignment, specAlignment, List.isEmpty_iff, h,
      if_neg h, mul_comm]
    exact if_neg id
  · norm_num [detectAlignment, rightishBlock]
  · norm_num [detectAlignment, leftishBlock]

/-- C2 witness: the refinement applied at a concrete non-empty list. -/
theorem C2_detect_alignment_witness :
    detectAlignment [leftishBlock] 612 = specAlignment [leftishBlock] 612 :=
  C2_detect_alignment.1 [leftishBlock] 612 (by simp)

/-! ## Claim C8 — out-of-range page indices -/

/-- Helper: an index outside `[-n, n)` fails to resolve. -/
theorem resolvePage_out_of_range (n : Nat) (i : Int)
    (h : i < -(n : Int) ∨ (n : Int) ≤ i) : resolvePage n i = none := by
  unfold resolvePage
  rw [if_neg (by omega), if_neg (by omega)]

/-- C8 (amended): the extractor's page-scoped queries propagate the
engine's IndexError for any index outside `[-pageCount, pageCount)`, but
`PDFRenderer.insert_text` does NOT raise for `page ≥ pageCount` — it
returns `false` with nothing drawn — and raises only for
`page < -pageCount`; no `PageIndexError` type exists in the code. -/
theorem C8_page_range :
    (∀ (dims : List (ℚ × ℚ)) (page : Int),
        page < -(dims.length : Int) ∨ (dims.length : Int) ≤ page →
        getPageDimensions dims page = .error "page not in document") ∧
    (∀ (doc : List (List Span)) (page : Int),
        page < -(doc.length : Int) ∨ (doc.length : Int) ≤ page →
        extractTextBlocksPage doc page = .error "page not in document") ∧
    (∀ (n : Nat) (page : Int) (text : String) (x y : ℚ)
        (o : Option RenderOptions), (n : Int) ≤ page →
        rendererInsertText n page text x y o = .ok (false, [])) ∧
    (∀ (n : Nat) (page : Int) (text : String) (x y : ℚ)
        (o : Option RenderOptions), page < -(n : Int) →
        rendererInsertText n page text x y o =
          .error "page not in document") := by
  refine ⟨fun dims page h => ?_, fun doc page h => ?_,
    fun n page text x y o h => ?_, fun n page text x y o h => ?_⟩
  · unfold getPageDimensions
    rw [resolvePage_out_of_range _ _ h]
  · unfold extractTextBlocksPage
    rw [resolvePage_out_of_range _ _ h]
  · unfold rendererInsertText
    rw [if_pos h]
  · unfold rendererInsertText
    rw [if_neg (by omega), resolvePage_out_of_range _ _ (Or.inl h)]

/-- C8 counterexample: on a one-page document, inserting at page index 1
(out of range) returns a `false` result and raises nothing, refuting that
every page-scoped operation raises `PageIndexError`. -/
theorem C8_counterexample :
    rendererInsertText 1 1 "x" 0 0 none = .ok (false, []) := rfl

/-- C8 witness: the amended theorem applied at concrete inputs. -/
theorem C8_page_range_witness :
    getPageDimensions [(612, 792)] 3 = .error "page not in document" ∧
    extractTextBlocksPage [[]] (-2) = .error "page not in document" ∧
    rendererInsertText 2 5 "t" 0 0 none = .ok (false, []) ∧
    rendererInsertText 2 (-3) "t" 0 0 none = .error "page not in document" :=
  ⟨C8_page_range.1 [(612, 792)] 3 (Or.inr (by norm_num)),
   C8_page_range.2.1 [[]] (-2) (Or.inl (by norm_num)),
   C8_page_range.2.2.1 2 5 "t" 0 0 none (by norm_num),
   C8_page_range.2.2.2 2 (-3) "t" 0 0 none (by norm_num)⟩

/-! ## Claim C9 — PDFEditor.insert_text font resolution -/

/-- The dominant font of a page in the failing scenario. -/
def timesFont : FontInfo := ⟨"Times", 10, 0, false, false, false, false, (0, 0, 0)⟩

/-- C9: when a dominant font exists and `font_size` is unspecified, an
explicitly supplied `font_name` is silently ignored — the options keep the
dominant font's mapped name ("times"), contradicting the function's own
docstring ("uses dominant font if None"); an explicit `font_size` is
honoured in that branch, and with no dominant font the defaults
12.0 / "helv" back up the given values. -/
theorem C9_insert_text_font_resolution :
    editorInsertTextOptions (some timesFont) none (some "cour") =
      ⟨"times", 10, (0, 0, 0), 0, true⟩ ∧
    (editorInsertTextOptions (some timesFont) none (some "cour")).font_name ≠
      "cour" ∧
    editorInsertTextOptions (some timesFont) (some 20) none =
      ⟨"times", 20, (0, 0, 0), 0, true⟩ ∧
    editorInsertTextOptions none none none = defaultRenderOptions ∧
    editorInsertTextOptions none (some 9) (some "cour") =
      ⟨"cour", 9, (0, 0, 0), 0, true⟩ := by
  refine ⟨?_, ?_, ?_, ?_, ?_⟩ <;> decide

/-! ## Claim C3 — replace_text_block pipeline -/

/-- Helper: an in-range natural page index resolves to itself. -/
theorem resolvePage_nat (n p : Nat) (h : p < n) :
    resolvePage n (p : Int) = some p := by
  unfold resolvePage
  rw [if_pos ⟨Int.natCast_nonneg p, by exact_mod_cast h⟩]
  simp

/-- C3: on an open document containing the block's page,
`replace_text_block` first paints a white filled rectangle exactly over the
block's box with overlay false, then inserts the new text anchored at
`(x0, y0 + font_size)`; with explicit options those are used verbatim, and
with the options omitted they are exactly `RenderOptions.from_text_block`
of the block. -/
theorem C3_replace_text_block (n : Nat) (b : TextBlock) (t : String)
    (h : b.page_number < n) :
    (∀ o : RenderOptions,
        replaceTextBlock n b t (some o) =
          .ok (true,
            [.drawRect b.page_number (b.x0, b.y0, b.x1, b.y1) (1, 1, 1)
               (1, 1, 1) false,
             .insertText b.page_number (b.x0, b.y0 + b.font_size) t
               o.font_name o.font_size o.color o.overlay])) ∧
    replaceTextBlock n b t none =
      .ok (true,
        [.drawRect b.page_number (b.x0, b.y0, b.x1, b.y1) (1, 1, 1)
           (1, 1, 1) false,
         .insertText b.page_number (b.x0, b.y0 + b.font_size) t
           (RenderOptions.fromTextBlock b 0).font_name
           (RenderOptions.fromTextBlock b 0).font_size
           (RenderOptions.fromTextBlock b 0).color
           (RenderOptions.fromTextBlock b 0).overlay]) := by
  have hres : resolvePage n (b.page_number : Int) = some b.page_number :=
    resolvePage_nat n b.page_number h
  have hn : ¬ ((n : Int) ≤ (b.page_number : Int)) := by omega
  have hins : ∀ o : RenderOptions,
      rendererInsertText n (b.page_number : Int) t b.x0 (b.y0 + b.font_size)
        (some o) =
      .ok (true, [.insertText b.page_number (b.x0, b.y0 + b.font_size) t
        o.font_name o.font_size o.color o.overlay]) := by
    intro o
    unfold rendererInsertText
    rw [if_neg hn, hres]
    rfl
  constructor
  · intro o
    unfold replaceTextBlock
    rw [hres]
    simp only [hins]
    rfl
  · unfold replaceTextBlock
    rw [hres]
    simp only [hins]
    rfl

/-- A concrete styled block for the C3 witness. -/
def c3Block : TextBlock :=
  ⟨"old", 72, 100, 150, 115, "Times-Roman", 12, 0, (0, 0, 0), 0, 0, 0⟩

/-- C3 witness: the pipeline theorem applied to a concrete block on a
one-page document with omitted options. -/
theorem C3_replace_text_block_witness :
    replaceTextBlock 1 c3Block "new" none =
      .ok (true,
        [.drawRect c3Block.page_number
           (c3Block.x0, c3Block.y0, c3Block.x1, c3Block.y1) (1, 1, 1)
           (1, 1, 1) false,
         .insertText c3Block.page_number
           (c3Block.x0, c3Block.y0 + c3Block.font_size) "new"
           (RenderOptions.fromTextBlock c3Block 0).font_name
           (RenderOptions.fromTextBlock c3Block 0).font_size
           (RenderOptions.fromTextBlock c3Block 0).color
           (RenderOptions.fromTextBlock c3Block 0).overlay]) :=
  (C3_replace_text_block 1 c3Block "new" (by decide)).2

/-! ## Claim C1 — region clustering invariants -/

/-- Helper: when no region matches, the loop falls through and a fresh
region is appended at the end. -/
theorem insertBlock_no_match (b : TextBlock) :
    ∀ rs : List LayoutRegion, (∀ r ∈ rs, isBlockInRegion b r 5 = false) →
    insertBlock rs b = rs ++ [mkRegion b] := by
  intro rs h
  induction rs with
  | nil => rfl
  | cons r t ih =>
    have hr : isBlockInRegion b r 5 = false := h r (by simp)
    simp only [insertBlock, hr, Bool.false_eq_true, if_false, List.cons_append,
      List.cons.injEq, true_and]
    exact ih fun x hx => h x (by simp [hx])

/-- Helper: the first matching region receives the block; everything else
is untouched. -/
theorem insertBlock_first_match (b : TextBlock) :
    ∀ (l₁ : List LayoutRegion) (r : LayoutRegion) (l₂ : List LayoutRegion),
    (∀ x ∈ l₁, isBlockInRegion b x 5 = false) →
    isBlockInRegion b r 5 = true →
    insertBlock (l₁ ++ r :: l₂) b = l₁ ++ appendMember r b :: l₂ := by
  intro l₁
  induction l₁ with
  | nil =>
    intro r l₂ _ hr
    simp [insertBlock, hr]
  | cons x t ih =>
    intro r l₂ hnot hr
    have hx : isBlockInRegion b x 5 = false := hnot x (by simp)
    simp only [List.cons_append, insertBlock, hx, Bool.false_eq_true, if_false,
      List.cons.injEq, true_and]
    exact ih r l₂ (fun y hy => hnot y (by simp [hy])) hr

/-- After any number of operations, an existing region keeps its bounding
box and its member list only grows (by appended members); new regions may
appear after it. -/
def Grows (old new : List LayoutRegion) : Prop :=
  old.length ≤ new.length ∧
  ∀ (i : Nat) (ro rn : LayoutRegion), old[i]? = some ro → new[i]? = some rn →
    regionBox rn = regionBox ro ∧ ro.text_blocks <+: rn.text_blocks

/-- `Grows` is reflexive. -/
theorem growsRefl (l : List LayoutRegion) : Grows l l := by
  refine ⟨le_refl _, fun i ro rn h1 h2 => ?_⟩
  rw [h1] at h2
  cases h2
  exact ⟨rfl, List.prefix_rfl⟩

/-- `Grows` is transitive. -/
theorem growsTrans {a b c : List LayoutRegion} (h1 : Grows a b)
    (h2 : Grows b c) : Grows a c := by
  obtain ⟨hl1, hp1⟩ := h1
  obtain ⟨hl2, hp2⟩ := h2
  refine ⟨le_trans hl1 hl2, fun i ro rn ha hc => ?_⟩
  have hia : i < a.length := by
    rcases List.getElem?_eq_some.mp ha with ⟨hh, _⟩
    exact hh
  have hib : i < b.length := lt_of_lt_of_le hia hl1
  have hb : b[i]? = some b[i] := List.getElem?_eq_getElem hib
  obtain ⟨e1, q1⟩ := hp1 i ro (b[i]) ha hb
  obtain ⟨e2, q2⟩ := hp2 i (b[i]) rn hb hc
  exact ⟨e2.trans e1, q1.trans q2⟩

/-- Helper: one `insertBlock` step is a growth. -/
theorem insertBlock_grows (b : TextBlock) :
    ∀ rs : List LayoutRegion, Grows rs (insertBlock rs b) := by
  intro rs
  induction rs with
  | nil =>
    exact ⟨by simp [insertBlock], fun i ro rn h1 _ => by simp at h1⟩
  | cons r t ih =>
    by_cases hc : isBlockInRegion b r 5 = true
    · refine ⟨by simp [insertBlock, hc], fun i ro rn h1 h2 => ?_⟩
      cases i with
      | zero =>
        simp only [List.getElem?_cons_zero, Option.some.injEq] at h1
        simp only [insertBlock, hc, if_true, List.getElem?_cons_zero,
          Option.some.injEq] at h2
        subst h1
        subst h2
        exact ⟨rfl, List.prefix_append _ _⟩
      | succ j =>
        simp only [List.getElem?_cons_succ] at h1
        simp only [insertBlock, hc, if_true, List.getElem?_cons_succ] at h2
        rw [h1] at h2
        cases h2
        exact ⟨rfl, List.prefix_rfl⟩
    · have hcf : isBlockInRegion b r 5 = false := by simpa using hc
      obtain ⟨ihl, ihp⟩ := ih
      refine ⟨?_, fun i ro rn h1 h2 => ?_⟩
      · simp only [insertBlock, hcf, Bool.false_eq_true, if_false,
          List.length_cons]
        omega
      · cases i with
        | zero =>
          simp only [List.getElem?_cons_zero, Option.some.injEq] at h1
          simp only [insertBlock, hcf, Bool.false_eq_true, if_false,
            List.getElem?_cons_zero, Option.some.injEq] at h2
          subst h1
          subst h2
          exact ⟨rfl, List.prefix_rfl⟩
        | succ j =>
          simp only [List.getElem?_cons_succ] at h1
          simp only [insertBlock, hcf, Bool.false_eq_true, if_false,
            List.getElem?_cons_succ] at h2
          exact ihp j ro rn h1 h2

/-- Helper: reading back the page just written. -/
theorem getRegions_setRegions_self :
    ∀ (st : MapperState) (p : Nat) (rs : List LayoutRegion),
    getRegions (setRegions st p rs) p = rs := by
  intro st
  induction st with
  | nil => intro p rs; simp [setRegions, getRegions]
  | cons e t ih =>
    intro p rs
    obtain ⟨q, qs⟩ := e
    by_cases h : q = p
    · subst h
      simp [setRegions, getRegions]
    · simp only [setRegions, h, if_false, getRegions]
      exact ih p rs

/-- Helper: writing one page leaves the other pages unchanged. -/
theorem getRegions_setRegions_other :
    ∀ (st : MapperState) (p q : Nat) (rs : List LayoutRegion), q ≠ p →
    getRegions (setRegions st p rs) q = getRegions st q := by
  intro st
  induction st with
  | nil =>
    intro p q rs h
    simp only [setRegions, getRegions]
    rw [if_neg (fun e => h e.symm)]
  | cons e t ih =>
    intro p q rs h
    obtain ⟨k, ks⟩ := e
    by_cases hk : k = p
    · subst hk
      simp only [setRegions, if_pos rfl, getRegions]
      rw [if_neg (fun e => h e.symm), if_neg (fun e => h e.symm)]
    · simp only [setRegions, hk, if_false, getRegions]
      by_cases hq : k = q
      · rw [if_pos hq, if_pos hq]
      · rw [if_neg hq, if_neg hq]
        exact ih p q rs h

/-- Helper: appending a fresh empty page does not change any read. -/
theorem getRegions_append_empty :
    ∀ (st : MapperState) (p q : Nat),
    getRegions (st ++ [(p, [])]) q = getRegions st q := by
  intro st
  induction st with
  | nil =>
    intro p q
    simp only [List.nil_append, getRegions]
    split <;> rfl
  | cons e t ih =>
    intro p q
    obtain ⟨k, ks⟩ := e
    simp only [List.cons_append, getRegions]
    split
    · rfl
    · exact ih p q

/-- Helper: `ensurePage` never changes a read. -/
theorem getRegions_ensurePage (st : MapperState) (p q : Nat) :
    getRegions (ensurePage st p) q = getRegions st q := by
  unfold ensurePage
  split
  · rfl
  · exact getRegions_append_empty st p q

/-- Helper: `addBlock` acts on the block's page exactly as `insertBlock`. -/
theorem getRegions_addBlock_self (st : MapperState) (b : TextBlock) :
    getRegions (addBlock st b) b.page_number =
      insertBlock (getRegions st b.page_number) b := by
  unfold addBlock
  rw [getRegions_setRegions_self, getRegions_ensurePage]

/-- Helper: `addBlock` leaves the other pages unchanged. -/
theorem getRegions_addBlock_other (st : MapperState) (b : TextBlock)
    (q : Nat) (h : q ≠ b.page_number) :
    getRegions (addBlock st b) q = getRegions st q := by
  unfold addBlock
  rw [getRegions_setRegions_other _ _ _ _ h, getRegions_ensurePage]

/-- Helper: one `addBlock` step grows every page's region list. -/
theorem addBlock_grows (st : MapperState) (b : TextBlock) (p : Nat) :
    Grows (getRegions st p) (getRegions (addBlock st b) p) := by
  by_cases h : p = b.page_number
  · subst h
    rw [getRegions_addBlock_self]
    exact insertBlock_grows b _
  · rw [getRegions_addBlock_other st b p h]
    exact growsRefl _

/-- Helper: `add_text_blocks` grows every page's region list. -/
theorem addTextBlocks_grows (st : MapperState) (bs : List TextBlock)
    (p : Nat) :
    Grows (getRegions st p) (getRegions (addTextBlocks st bs) p) := by
  induction bs generalizing st with
  | nil => exact growsRefl _
  | cons b t ih => exact growsTrans (addBlock_grows st b p) (ih (addBlock st b))

/-- C1: `add_text_blocks` appends each block to the first region on its
page satisfying the 5-point tolerance condition (`|Δx0| < 5`, `|Δx1| < 5`,
`y0 ≥ region.y0 - 5`, `y1 ≤ region.y1 + 5`); when no region matches, a new
region whose box is the block's box and whose sole member is the block is
appended; and a region's bounding box is never changed after creation —
only its member list grows. -/
theorem C1_add_text_blocks :
    (∀ (b : TextBlock) (r : LayoutRegion),
        isBlockInRegion b r 5 = true ↔
          (|b.x0 - r.x0| < 5 ∧ |b.x1 - r.x1| < 5 ∧
           r.y0 - 5 ≤ b.y0 ∧ b.y1 ≤ r.y1 + 5)) ∧
    (∀ (st : MapperState) (b : TextBlock),
        (∀ r ∈ getRegions st b.page_number, isBlockInRegion b r 5 = false) →
        getRegions (addBlock st b) b.page_number =
          getRegions st b.page_number ++ [mkRegion b]) ∧
    (∀ (st : MapperState) (b : TextBlock) (l₁ : List LayoutRegion)
        (r : LayoutRegion) (l₂ : List LayoutRegion),
        getRegions st b.page_number = l₁ ++ r :: l₂ →
        (∀ x ∈ l₁, isBlockInRegion b x 5 = false) →
        isBlockInRegion b r 5 = true →
        getRegions (addBlock st b) b.page_number =
          l₁ ++ appendMember r b :: l₂) ∧
    (∀ (r : LayoutRegion) (b : TextBlock),
        regionBox (appendMember r b) = regionBox r ∧
        (appendMember r b).text_blocks = r.text_blocks ++ [b]) ∧
    (∀ b : TextBlock,
        regionBox (mkRegion b) = (b.x0, b.y0, b.x1, b.y1) ∧
        (mkRegion b).text_blocks = [b]) ∧
    (∀ (st : MapperState) (bs : List TextBlock) (p : Nat),
        Grows (getRegions st p) (getRegions (addTextBlocks st bs) p)) := by
  refine ⟨fun b r => ?_, fun st b h => ?_, fun st b l₁ r l₂ he hnot hr => ?_,
    fun r b => ⟨rfl, rfl⟩, fun b => ⟨rfl, rfl⟩, addTextBlocks_grows⟩
  · simp only [isBlockInRegion, Bool.and_eq_true, decide_eq_true_eq, and_assoc]
  · rw [getRegions_addBlock_self]
    exact insertBlock_no_match b _ h
  · rw [getRegions_addBlock_self, he]
    exact insertBlock_first_match b l₁ r l₂ hnot hr

/-- A second block geometrically inside the tolerance band of `okBlock`'s
region. -/
def nearbyBlock : TextBlock :=
  ⟨"world", 74, 112, 148, 118, "Helvetica", 12, 0, (0, 0, 0), 0, 0, 0⟩

/-- C1 witness: on an empty mapper the first block opens a region whose
box is its own box, and a second block within tolerance joins that region
rather than opening a new one. -/
theorem C1_add_text_blocks_witness :
    getRegions (addBlock [] okBlock) okBlock.page_number =
      [] ++ [mkRegion okBlock] ∧
    getRegions (addBlock (addBlock [] okBlock) nearbyBlock)
        nearbyBlock.page_number =
      [] ++ appendMember (mkRegion okBlock) nearbyBlock :: [] :=
  ⟨C1_add_text_blocks.2.1 [] okBlock
      (fun r hr => by simp [getRegions] at hr),
   C1_add_text_blocks.2.2.1 (addBlock [] okBlock) nearbyBlock []
      (mkRegion okBlock) [] (by rfl) (fun x hx => by simp at hx)
      (by
        rw [(C1_add_text_blocks.1 nearbyBlock (mkRegion okBlock))]
        norm_num [nearbyBlock, okBlock, mkRegion, abs_sub_lt_iff])⟩

/-! ## Claim C6 — calculate_line_spacing -/

/-- Helper: inserting permutes. -/
theorem insertByY0_perm (a : TextBlock) (l : List TextBlock) :
    (insertByY0 a l).Perm (a :: l) := by
  induction l with
  | nil => exact List.Perm.refl _
  | cons b t ih =>
    unfold insertByY0
    split
    · exact List.Perm.refl _
    · exact (ih.cons b).trans (List.Perm.swap a b t)

/-- Helper: the sort is a permutation of the input. -/
theorem sortByY0_perm (l : List TextBlock) : (sortByY0 l).Perm l := by
  induction l with
  | nil => exact List.Perm.refl _
  | cons a t ih => exact (insertByY0_perm a (sortByY0 t)).trans (ih.cons a)

/-- Helper: inserting preserves y0-sortedness. -/
theorem insertByY0_pairwise (a : TextBlock) (l : List TextBlock)
    (h : List.Pairwise (fun x y : TextBlock => x.y0 ≤ y.y0) l) :
    List.Pairwise (fun x y : TextBlock => x.y0 ≤ y.y0) (insertByY0 a l) := by
  induction l with
  | nil => simp [insertByY0]
  | cons b t ih =>
    rcases List.pairwise_cons.mp h with ⟨hb, ht⟩
    unfold insertByY0
    split
    · rename_i hle
      refine List.pairwise_cons.mpr ⟨?_, h⟩
      intro x hx
      rcases List.mem_cons.mp hx with rfl | hxt
      · exact hle
      · exact le_trans hle (hb x hxt)
    · rename_i hle
      refine List.pairwise_cons.mpr ⟨?_, ih ht⟩
      intro x hx
      rcases List.mem_cons.mp ((insertByY0_perm a t).mem_iff.mp hx) with rfl | hxt
      · exact le_of_not_le hle
      · exact hb x hxt

/-- Helper: the sort is y0-sorted. -/
theorem sortByY0_pairwise (l : List TextBlock) :
    List.Pairwise (fun x y : TextBlock => x.y0 ≤ y.y0) (sortByY0 l) := by
  induction l with
  | nil => simp [sortByY0]
  | cons a t ih => exact insertByY0_pairwise a (sortByY0 t) ih

/-- The second block of the concrete spacing example. -/
def belowBlock : TextBlock :=
  ⟨"w", 72, 120, 150, 135, "Helvetica", 12, 0, (0, 0, 0), 0, 0, 0⟩

/-- C6: `calculate_line_spacing` sorts by y0 ascending (a y0-sorted
permutation of the input), takes the strictly positive consecutive gaps
`next.y0 - prev.y1`, and returns their arithmetic mean; it returns 0 for
fewer than two blocks or when no positive gap exists; two blocks at
(y0=100, y1=115) and (y0=120, y1=135) give exactly 5. -/
theorem C6_line_spacing :
    (∀ blocks : List TextBlock, blocks.length < 2 →
        calculateLineSpacing blocks = 0) ∧
    (∀ blocks : List TextBlock,
        (consecutiveGaps (sortByY0 blocks)).filter (0 < ·) = [] →
        calculateLineSpacing blocks = 0) ∧
    (∀ blocks : List TextBlock, (sortByY0 blocks).Perm blocks ∧
        List.Pairwise (fun x y : TextBlock => x.y0 ≤ y.y0) (sortByY0 blocks)) ∧
    (∀ blocks : List TextBlock, 2 ≤ blocks.length →
        (consecutiveGaps (sortByY0 blocks)).filter (0 < ·) ≠ [] →
        calculateLineSpacing blocks =
          ((consecutiveGaps (sortByY0 blocks)).filter (0 < ·)).sum /
            ((consecutiveGaps (sortByY0 blocks)).filter (0 < ·)).length) ∧
    calculateLineSpacing [okBlock, belowBlock] = 5 := by
  refine ⟨fun blocks h => ?_, fun blocks h => ?_,
    fun blocks => ⟨sortByY0_perm blocks, sortByY0_pairwise blocks⟩,
    fun blocks h2 hne => ?_, ?_⟩
  · unfold calculateLineSpacing
    rw [if_pos h]
  · unfold calculateLineSpacing
    split
    · rfl
    · rw [h]
      rfl
  · unfold calculateLineSpacing
    rw [if_neg (not_lt.mpr h2), if_neg (by simpa [List.isEmpty_iff] using hne)]
  · norm_num [calculateLineSpacing, sortByY0, insertByY0, consecutiveGaps,
      okBlock, belowBlock, List.filter]

/-- C6 witness: the general clauses applied at concrete inputs. -/
theorem C6_line_spacing_witness :
    calculateLineSpacing [okBlock] = 0 ∧
    calculateLineSpacing [okBlock, belowBlock] =
      ((consecutiveGaps (sortByY0 [okBlock, belowBlock])).filter (0 < ·)).sum /
        ((consecutiveGaps (sortByY0 [okBlock, belowBlock])).filter
          (0 < ·)).length :=
  ⟨C6_line_spacing.1 [okBlock] (by norm_num),
   C6_line_spacing.2.2.2.1 [okBlock, belowBlock] (by norm_num)
     (by norm_num [sortByY0, insertByY0, consecutiveGaps, okBlock, belowBlock,
       List.filter])⟩

/-! ## Claim C10 — spell checker pass-through -/

/-- Helper: a non-alphabetic word is reported correct. -/
theorem checkWord_nonalpha (oracle : String → String) (dict : List String)
    (w : String) (h : pyIsAlpha w = false) : checkWord oracle dict w = true := by
  unfold checkWord
  by_cases hd : dict.contains (pyLower w) = true
  · rw [if_pos hd]
  · rw [if_neg hd, if_pos (by simp [h])]

/-- Helper: a dictionary word is reported correct. -/
theorem checkWord_dict (oracle : String → String) (dict : List String)
    (w : String) (h : dict.contains (pyLower w) = true) :
    checkWord oracle dict w = true := by
  unfold checkWord
  rw [if_pos h]

/-- Helper: a non-alphabetic word is returned unchanged. -/
theorem correctWord_nonalpha (oracle : String → String) (dict : List String)
    (w : String) (h : pyIsAlpha w = false) : correctWord oracle dict w = w := by
  unfold correctWord
  by_cases hd : dict.contains (pyLower w) = true
  · rw [if_pos hd]
  · rw [if_neg hd, if_pos (by simp [h])]

/-- Helper: a dictionary word is returned unchanged. -/
theorem correctWord_dict (oracle : String → String) (dict : List String)
    (w : String) (h : dict.contains (pyLower w) = true) :
    correctWord oracle dict w = w := by
  unfold correctWord
  rw [if_pos h]

/-- Helper: `correct_text` is the identity on a text whose every token is
skipped (non-alphabetic or in the dictionary). -/
theorem correctTextAux_id (oracle : String → String) (dict : List String) :
    ∀ (fuel : Nat) (cs : List Char) (i : Nat), cs.length < fuel →
    (∀ s ∈ (tokenizeAux fuel cs i).map Prod.fst,
        pyIsAlpha s = false ∨ dict.contains (pyLower s) = true) →
    correctTextAux oracle dict fuel cs = cs := by
  intro fuel
  induction fuel with
  | zero => intro cs i h _; omega
  | succ f ih =>
    intro cs i hlen htok
    cases cs with
    | nil => rfl
    | cons c rest =>
      cases hw : wordChar c with
      | true =>
        have hrun : correctWord oracle dict
            ((c :: rest).takeWhile wordChar).asString =
            ((c :: rest).takeWhile wordChar).asString := by
          have hmem : ((c :: rest).takeWhile wordChar).asString ∈
              (tokenizeAux (f + 1) (c :: rest) i).map Prod.fst := by
            simp only [tokenizeAux, hw, eq_self_iff_true, if_true,
              List.map_cons]
            exact List.mem_cons_self _ _
          rcases htok _ hmem with h | h
          · exact correctWord_nonalpha oracle dict _ h
          · exact correctWord_dict oracle dict _ h
        have hdrop : ((c :: rest).dropWhile wordChar).length < f := by
          have h1 : ((c :: rest).dropWhile wordChar).length ≤ rest.length := by
            rw [List.dropWhile_cons_of_pos hw]
            exact dropWhileLenLe wordChar rest
          simp only [List.length_cons] at hlen
          omega
        simp only [correctTextAux, hw, eq_self_iff_true, if_true]
        rw [hrun]
        have hlist : (((c :: rest).takeWhile wordChar).asString).toList =
            (c :: rest).takeWhile wordChar := rfl
        rw [hlist,
          ih ((c :: rest).dropWhile wordChar)
            (i + ((c :: rest).takeWhile wordChar).length) hdrop
            (fun s hs => htok s (by
              simp only [tokenizeAux, hw, eq_self_iff_true, if_true,
                List.map_cons]
              exact List.mem_cons_of_mem _ hs)),
          List.takeWhile_append_dropWhile]
      | false =>
        simp only [correctTextAux, hw, Bool.false_eq_true, if_false]
        have hlen2 : rest.length < f := by
          simp only [List.length_cons] at hlen
          omega
        have htok2 : ∀ s ∈ (tokenizeAux f rest (i + 1)).map Prod.fst,
            pyIsAlpha s = false ∨ dict.contains (pyLower s) = true := by
          intro s hs
          apply htok
          simp only [tokenizeAux, hw, Bool.false_eq_true, if_false]
          exact hs
        rw [ih rest (i + 1) hlen2 htok2]

/-- Helper: rebuilding a string from its characters. -/
theorem asString_toList (s : String) : (s.toList).asString = s := rfl

/-- C10: every word that is not purely alphabetic, and every word whose
lowercase form is in the custom dictionary, is reported correct by
`check_word` and returned unchanged by `correct_word`; consequently
`check_text` only ever reports alphabetic non-dictionary tokens, and
`correct_text` is the identity on a text all of whose tokens are skipped. -/
theorem C10_spellcheck_passthrough :
    (∀ (oracle : String → String) (dict : List String) (w : String),
        pyIsAlpha w = false →
        checkWord oracle dict w = true ∧ correctWord oracle dict w = w) ∧
    (∀ (oracle : String → String) (dict : List String) (w : String),
        dict.contains (pyLower w) = true →
        checkWord oracle dict w = true ∧ correctWord oracle dict w = w) ∧
    (∀ (oracle : String → String) (dict : List String) (text : String)
        (m : String × Nat × Nat), m ∈ checkText oracle dict text →
        pyIsAlpha m.1 = true ∧ dict.contains (pyLower m.1) = false) ∧
    (∀ (oracle : String → String) (dict : List String) (text : String),
        (∀ s ∈ (pyTokens text).map Prod.fst,
            pyIsAlpha s = false ∨ dict.contains (pyLower s) = true) →
        correctText oracle dict text = text) := by
  refine ⟨fun oracle dict w h =>
      ⟨checkWord_nonalpha oracle dict w h, correctWord_nonalpha oracle dict w h⟩,
    fun oracle dict w h =>
      ⟨checkWord_dict oracle dict w h, correctWord_dict oracle dict w h⟩,
    fun oracle dict text m hm => ?_, fun oracle dict text h => ?_⟩
  · have hf := List.mem_filter.mp hm
    have hcw : checkWord oracle dict m.1 = false := by
      simpa using hf.2
    constructor
    · cases ha : pyIsAlpha m.1 with
      | false =>
        rw [checkWord_nonalpha oracle dict m.1 ha] at hcw
        cases hcw
      | true => rfl
    · cases hd : dict.contains (pyLower m.1) with
      | false => rfl
      | true =>
        rw [checkWord_dict oracle dict m.1 hd] at hcw
        cases hcw
  · unfold correctText
    rw [correctTextAux_id oracle dict (text.toList.length + 1) text.toList 0
        (by omega) (by exact h), asString_toList]

/-- C10 witness: the pass-through theorem applied to concrete inputs (the
oracle rewrites everything to "QQQ"; the custom dictionary holds
"naproxen"); tokens with digits or underscores and dictionary words
survive `correct_text` untouched, and a genuine misspelling is the only
kind of token `check_text` reports. -/
theorem C10_spellcheck_passthrough_witness :
    checkWord (fun _ => "QQQ") ["naproxen"] "abc123" = true ∧
    correctWord (fun _ => "QQQ") ["naproxen"] "abc123" = "abc123" ∧
    checkWord (fun _ => "QQQ") ["naproxen"] "NaProxen" = true ∧
    correctWord (fun _ => "QQQ") ["naproxen"] "NaProxen" = "NaProxen" ∧
    (pyIsAlpha "wrld" = true ∧
      List.contains ["naproxen"] (pyLower "wrld") = false) ∧
    correctText (fun _ => "QQQ") ["naproxen"] "x9 _a 42, naproxen!" =
      "x9 _a 42, naproxen!" :=
  ⟨(C10_spellcheck_passthrough.1 (fun _ => "QQQ") ["naproxen"] "abc123"
      (by decide)).1,
   (C10_spellcheck_passthrough.1 (fun _ => "QQQ") ["naproxen"] "abc123"
      (by decide)).2,
   (C10_spellcheck_passthrough.2.1 (fun _ => "QQQ") ["naproxen"] "NaProxen"
      (by decide)).1,
   (C10_spellcheck_passthrough.2.1 (fun _ => "QQQ") ["naproxen"] "NaProxen"
      (by decide)).2,
   C10_spellcheck_passthrough.2.2.1 (fun _ => "QQQ") ["naproxen"]
      "helloo wrld" ("wrld", 7, 11) (by decide),
   C10_spellcheck_passthrough.2.2.2 (fun _ => "QQQ") ["naproxen"]
      "x9 _a 42, naproxen!" (by decide)⟩

/-! ## Claim C5 — get_dominant_font -/

/-- The running total stored for a key (reading the first occurrence, as a
Python dict does). -/
def keyCount : List (FontKey × Nat × FontInfo) → FontKey → Nat
  | [], _ => 0
  | (k, c, _) :: t, q => if k = q then c else keyCount t q

/-- Helper: one span adds its character count to exactly its own key. -/
theorem bumpFont_keyCount (s : Span) :
    ∀ (acc : List (FontKey × Nat × FontInfo)) (q : FontKey),
    keyCount (bumpFont acc s) q =
      keyCount acc q + (if spanKey s = q then s.text.length else 0) := by
  intro acc
  induction acc with
  | nil =>
    intro q
    simp only [bumpFont, keyCount]
    split <;> simp
  | cons e t ih =>
    intro q
    obtain ⟨k, c, fi⟩ := e
    simp only [bumpFont]
    by_cases hk : k = spanKey s
    · rw [if_pos hk]
      simp only [keyCount]
      by_cases hq : k = q
      · rw [if_pos hq, if_pos hq, if_pos (hk ▸ hq)]
      · rw [if_neg hq, if_neg hq, if_neg (fun e => hq (hk.trans e)),
          Nat.add_zero]
    · rw [if_neg hk]
      simp only [keyCount]
      by_cases hq : k = q
      · rw [if_pos hq, if_pos hq, if_neg (fun e => hk (hq.trans e.symm)),
          Nat.add_zero]
      · rw [if_neg hq, if_neg hq]
        exact ih q

/-- Helper: the accumulated count of a key over a span list. -/
theorem foldl_bumpFont_keyCount :
    ∀ (spans : List Span) (acc : List (FontKey × Nat × FontInfo))
      (q : FontKey),
    keyCount (spans.foldl bumpFont acc) q =
      keyCount acc q +
        ((spans.filter (fun s => decide (spanKey s = q))).map
          (fun s => s.text.length)).sum := by
  intro spans
  induction spans with
  | nil => simp
  | cons s t ih =>
    intro acc q
    simp only [List.foldl_cons]
    rw [ih (bumpFont acc s) q, bumpFont_keyCount s acc q]
    by_cases h : spanKey s = q
    · simp only [List.filter_cons]
      simp [h]
      omega
    · simp only [List.filter_cons]
      simp [h]

/-- Helper: bumping never empties the dict. -/
theorem bumpFont_ne_nil (acc : List (FontKey × Nat × FontInfo)) (s : Span) :
    bumpFont acc s ≠ [] := by
  cases acc with
  | nil => simp [bumpFont]
  | cons e t =>
    obtain ⟨k, c, fi⟩ := e
    simp only [bumpFont]
    split <;> simp

/-- Helper: folding over spans never empties a nonempty dict. -/
theorem foldl_bumpFont_ne_nil :
    ∀ (spans : List Span) (acc : List (FontKey × Nat × FontInfo)),
    acc ≠ [] → spans.foldl bumpFont acc ≠ [] := by
  intro spans
  induction spans with
  | nil => intro acc h; simpa using h
  | cons s t ih =>
    intro acc _
    exact ih (bumpFont acc s) (bumpFont_ne_nil acc s)

/-- Helper: the running Python `max` stays inside the list. -/
theorem pyMaxByCount_mem :
    ∀ (cs : List (FontKey × Nat × FontInfo)) (c : FontKey × Nat × FontInfo),
    pyMaxByCount c cs ∈ c :: cs := by
  intro cs
  induction cs with
  | nil => intro c; simp [pyMaxByCount]
  | cons x t ih =>
    intro c
    rw [show pyMaxByCount c (x :: t) =
        pyMaxByCount (if c.2.1 < x.2.1 then x else c) t from rfl]
    by_cases hc : c.2.1 < x.2.1
    · rw [if_pos hc]
      rcases List.mem_cons.mp (ih x) with he2 | ht
      · rw [he2]
        simp
      · simp [ht]
    · rw [if_neg hc]
      rcases List.mem_cons.mp (ih c) with he2 | ht
      · rw [he2]
        simp
      · simp [ht]

/-- Helper: the running Python `max` dominates every element. -/
theorem pyMaxByCount_ge :
    ∀ (cs : List (FontKey × Nat × FontInfo)) (c x : FontKey × Nat × FontInfo),
    x ∈ c :: cs → x.2.1 ≤ (pyMaxByCount c cs).2.1 := by
  intro cs
  induction cs with
  | nil =>
    intro c x hx
    simp only [List.mem_singleton] at hx
    subst hx
    exact le_refl _
  | cons y t ih =>
    intro c x hx
    have he : pyMaxByCount c (y :: t) =
        pyMaxByCount (if c.2.1 < y.2.1 then y else c) t := rfl
    rw [he]
    have hg : c.2.1 ≤ (if c.2.1 < y.2.1 then y else c).2.1 ∧
        y.2.1 ≤ (if c.2.1 < y.2.1 then y else c).2.1 := by
      by_cases hc : c.2.1 < y.2.1
      · rw [if_pos hc]
        exact ⟨le_of_lt hc, le_refl _⟩
      · rw [if_neg hc]
        exact ⟨le_refl _, le_of_not_lt hc⟩
    have hhead : (if c.2.1 < y.2.1 then y else c).2.1 ≤
        (pyMaxByCount (if c.2.1 < y.2.1 then y else c) t).2.1 :=
      ih _ _ (by simp)
    rcases List.mem_cons.mp hx with rfl | hyt
    · exact le_trans hg.1 hhead
    · rcases List.mem_cons.mp hyt with rfl | ht
      · exact le_trans hg.2 hhead
      · exact ih _ x (List.mem_cons_of_mem _ ht)

/-- Helper: the running Python `max` is the FIRST element attaining the
maximal count — everything strictly before it in the list is strictly
smaller. -/
theorem pyMaxByCount_first :
    ∀ (cs : List (FontKey × Nat × FontInfo)) (c : FontKey × Nat × FontInfo),
    ∃ l₁ l₂, c :: cs = l₁ ++ pyMaxByCount c cs :: l₂ ∧
      ∀ x ∈ l₁, x.2.1 < (pyMaxByCount c cs).2.1 := by
  intro cs
  induction cs with
  | nil => intro c; exact ⟨[], [], rfl, by simp⟩
  | cons y t ih =>
    intro c
    have he : pyMaxByCount c (y :: t) =
        pyMaxByCount (if c.2.1 < y.2.1 then y else c) t := rfl
    by_cases hc : c.2.1 < y.2.1
    · obtain ⟨l₁, l₂, hdec, hlt⟩ := ih y
      rw [if_pos hc] at he
      refine ⟨c :: l₁, l₂, ?_, ?_⟩
      · rw [he, List.cons_append, ← hdec]
      · intro x hx
        rcases List.mem_cons.mp hx with rfl | hx1
        · have hy : y.2.1 ≤ (pyMaxByCount y t).2.1 :=
            pyMaxByCount_ge t y y (by simp)
          rw [he]
          exact lt_of_lt_of_le hc hy
        · rw [he]
          exact hlt x hx1
    · obtain ⟨l₁, l₂, hdec, hlt⟩ := ih c
      rw [if_neg hc] at he
      cases l₁ with
      | nil =>
        simp only [List.nil_append, List.cons.injEq] at hdec
        refine ⟨[], y :: l₂, ?_, by simp⟩
        rw [he, ← hdec.1, List.nil_append, hdec.2]
      | cons z l₁t =>
        simp only [List.cons_append, List.cons.injEq] at hdec
        refine ⟨c :: y :: l₁t, l₂, ?_, ?_⟩
        · rw [he, List.cons_append, List.cons_append]
          conv_lhs => rw [hdec.2]
        · intro x hx
          have hcres : c.2.1 < (pyMaxByCount c t).2.1 := by
            have := hlt z (by simp)
            rw [← hdec.1] at this
            exact this
          rcases List.mem_cons.mp hx with rfl | hx1
          · rw [he]
            exact hcres
          · rcases List.mem_cons.mp hx1 with rfl | hx2
            · rw [he]
              exact lt_of_le_of_lt (le_of_not_lt hc) hcres
            · rw [he]
              exact hlt x (by rw [← hdec.1]; simp [hx2])

/-- The 5-character 16pt span of the concrete example. -/
def shortSpan16 : Span := ⟨"short", "Helvetica", 16, 0, (0, 0, 0)⟩

/-- The 25-character 12pt span of the concrete example. -/
def longSpan12 : Span :=
  ⟨"a much longer run of text", "Helvetica", 12, 0, (0, 0, 0)⟩

/-- C5 (amended): `get_dominant_font` aggregates, per (name, size, flags)
key, the total character count of the spans with that key; it returns
`None` exactly when the scope has no spans; otherwise it returns the
`FontInfo` recorded for a key of maximal total, and under equal totals the
FIRST key inserted during aggregation wins (Python `max` keeps the current
best unless a later count is strictly greater) — not a lexicographic rule;
the 5-characters-at-16pt versus 25-characters-at-12pt page reports the
12pt font. -/
theorem C5_dominant_font :
    (∀ (spans : List Span) (q : FontKey),
        keyCount (fontCounts spans) q =
          ((spans.filter (fun s => decide (spanKey s = q))).map
            (fun s => s.text.length)).sum) ∧
    (∀ spans : List Span, getDominantFont spans = none ↔ spans = []) ∧
    (∀ (spans : List Span) (c : FontKey × Nat × FontInfo)
        (cs : List (FontKey × Nat × FontInfo)), fontCounts spans = c :: cs →
        getDominantFont spans = some (pyMaxByCount c cs).2.2 ∧
        pyMaxByCount c cs ∈ c :: cs ∧
        (∀ x ∈ c :: cs, x.2.1 ≤ (pyMaxByCount c cs).2.1) ∧
        ∃ l₁ l₂, c :: cs = l₁ ++ pyMaxByCount c cs :: l₂ ∧
          ∀ x ∈ l₁, x.2.1 < (pyMaxByCount c cs).2.1) ∧
    getDominantFont [shortSpan16, longSpan12] =
      some (FontInfo.fromSpan longSpan12) := by
  refine ⟨fun spans q => ?_, fun spans => ?_, fun spans c cs h => ?_, ?_⟩
  · have := foldl_bumpFont_keyCount spans [] q
    simpa [fontCounts, keyCount] using this
  · constructor
    · intro h
      by_contra hne
      cases hs : spans with
      | nil => exact hne hs
      | cons s t =>
        have : fontCounts spans ≠ [] := by
          rw [hs]
          exact foldl_bumpFont_ne_nil t (bumpFont [] s) (bumpFont_ne_nil [] s)
        unfold getDominantFont at h
        cases hc : fontCounts spans with
        | nil => exact this hc
        | cons a b =>
          rw [hc] at h
          cases h
    · intro h
      subst h
      rfl
  · have hd : getDominantFont spans = some (pyMaxByCount c cs).2.2 := by
      unfold getDominantFont
      rw [h]
    exact ⟨hd, pyMaxByCount_mem cs c, pyMaxByCount_ge cs c,
      pyMaxByCount_first cs c⟩
  · decide

/-- C5 witness: the argmax clause applied to the concrete two-font page. -/
theorem C5_dominant_font_witness :
    getDominantFont [shortSpan16, longSpan12] =
      some (pyMaxByCount (spanKey shortSpan16, 5, FontInfo.fromSpan shortSpan16)
        [(spanKey longSpan12, 25, FontInfo.fromSpan longSpan12)]).2.2 :=
  (C5_dominant_font.2.2.1 [shortSpan16, longSpan12]
    (spanKey shortSpan16, 5, FontInfo.fromSpan shortSpan16)
    [(spanKey longSpan12, 25, FontInfo.fromSpan longSpan12)] (by decide)).1

/-- The first-inserted span of the tie counterexample. -/
def zebraSpan : Span := ⟨"hello", "Zebra", 12, 0, (0, 0, 0)⟩

/-- The second-inserted, lexicographically smaller span of the tie
counterexample. -/
def alphaSpan : Span := ⟨"howdy", "Alpha", 12, 0, (0, 0, 0)⟩

/-- C5 counterexample: two keys with equal 5-character totals; the code
returns the FIRST inserted key's font ("Zebra"), not the lexicographically
lowest (name, size) ("Alpha") the claim prescribes. -/
theorem C5_counterexample :
    getDominantFont [zebraSpan, alphaSpan] =
      some (FontInfo.fromSpan zebraSpan) ∧
    (FontInfo.fromSpan zebraSpan).name = "Zebra" ∧
    (FontInfo.fromSpan alphaSpan).name = "Alpha" ∧
    getDominantFont [zebraSpan, alphaSpan] ≠
      some (FontInfo.fromSpan alphaSpan) ∧
    keyCount (fontCounts [zebraSpan, alphaSpan]) (spanKey zebraSpan) =
      keyCount (fontCounts [zebraSpan, alphaSpan]) (spanKey alphaSpan) := by
  refine ⟨?_, ?_, ?_, ?_, ?_⟩ <;> decide

/-! ## Claim C4 — replace_text -/

/-- All blocks on a page, in region-then-member order. -/
def pageBlocks (st : MapperState) (p : Nat) : List TextBlock :=
  ((getRegions st p).map LayoutRegion.text_blocks).flatten

/-- All blocks in the mapper, in dict-then-region-then-member order. -/
def allBlocks (st : MapperState) : List TextBlock :=
  ((st.map Prod.fst).map (pageBlocks st)).flatten

/-- Helper: filtering a flattened list filters each chunk. -/
theorem filterFlatten {α : Type} (p : α → Bool) :
    ∀ l : List (List α),
    l.flatten.filter p = (l.map (fun x => x.filter p)).flatten := by
  intro l
  induction l with
  | nil => rfl
  | cons x t ih =>
    simp only [List.flatten_cons, List.filter_append, List.map_cons, ih]

/-- The pair of drawing commands a single block replacement produces (the
style always resolved from the block itself). -/
def replaceTrace (b : TextBlock) (m : String) : List Cmd :=
  [.drawRect b.page_number (b.x0, b.y0, b.x1, b.y1) (1, 1, 1) (1, 1, 1) false,
   .insertText b.page_number (b.x0, b.y0 + b.font_size) m
     (RenderOptions.fromTextBlock b 0).font_name
     (RenderOptions.fromTextBlock b 0).font_size
     (RenderOptions.fromTextBlock b 0).color
     (RenderOptions.fromTextBlock b 0).overlay]

/-- Helper: a replacement with omitted options succeeds with the
block-styled trace. -/
theorem replaceTextBlock_trace (n : Nat) (b : TextBlock) (m : String)
    (h : b.page_number < n) :
    replaceTextBlock n b m none = .ok (true, replaceTrace b m) := by
  have hres : resolvePage n (b.page_number : Int) = some b.page_number :=
    resolvePage_nat n b.page_number h
  have hins : rendererInsertText n (b.page_number : Int) m b.x0
      (b.y0 + b.font_size) (some (RenderOptions.fromTextBlock b 0)) =
      .ok (true, [.insertText b.page_number (b.x0, b.y0 + b.font_size) m
        (RenderOptions.fromTextBlock b 0).font_name
        (RenderOptions.fromTextBlock b 0).font_size
        (RenderOptions.fromTextBlock b 0).color
        (RenderOptions.fromTextBlock b 0).overlay]) := by
    unfold rendererInsertText
    rw [if_neg (by omega), hres]
    rfl
  unfold replaceTextBlock
  rw [hres]
  simp only [hins]
  rfl

/-- Helper: passing the block's own `from_text_block` options explicitly
produces the same result as omitting them (the renderer resolves omitted
options from the block). -/
theorem replaceTextBlock_some_trace (n : Nat) (b : TextBlock) (m : String)
    (h : b.page_number < n) :
    replaceTextBlock n b m (some (RenderOptions.fromTextBlock b 0)) =
      .ok (true, replaceTrace b m) :=
  replaceTextBlock_trace n b m h

/-- Helper: binding a successful Except value reduces. -/
theorem except_ok_bind {ε α β : Type} (a : α) (f : α → Except ε β) :
    (Except.ok a >>= f) = f a := rfl

/-- Helper: binding a pure Except value reduces. -/
theorem except_pure_bind {ε α β : Type} (a : α) (f : α → Except ε β) :
    ((pure a : Except ε α) >>= f) = f a := rfl

/-- Helper: the `replace_text` loop over any block list: one count and one
block-styled trace per block whose text actually changes, regardless of
the `preserve_style` flag. -/
theorem editorReplaceFold (n : Nat) (old_text new_text : String)
    (preserve : Bool) :
    ∀ (bs : List TextBlock) (k : Nat) (cmds : List Cmd),
    (∀ b ∈ bs, b.page_number < n) →
    List.foldlM (fun (acc : Nat × List Cmd) b =>
      let modified := pyReplace b.text old_text new_text (-1)
      if modified ≠ b.text then do
        let r ← replaceTextBlock n b modified
          (if preserve then some (RenderOptions.fromTextBlock b 0) else none)
        pure (acc.1 + 1, acc.2 ++ r.2)
      else pure acc) (k, cmds) bs =
    .ok
      (k + (bs.filter
        (fun b => pyReplace b.text old_text new_text (-1) != b.text)).length,
       cmds ++ ((bs.filter
        (fun b => pyReplace b.text old_text new_text (-1) != b.text)).map
          (fun b => replaceTrace b
            (pyReplace b.text old_text new_text (-1)))).flatten) := by
  intro bs
  induction bs with
  | nil =>
    intro k cmds _
    simp only [List.foldlM_nil, List.filter_nil, List.length_nil,
      Nat.add_zero, List.map_nil, List.flatten_nil, List.append_nil]
    rfl
  | cons b t ih =>
    intro k cmds hpage
    have hb : b.page_number < n := hpage b (by simp)
    have hrepl : replaceTextBlock n b (pyReplace b.text old_text new_text (-1))
        (if preserve then some (RenderOptions.fromTextBlock b 0) else none) =
        .ok (true, replaceTrace b (pyReplace b.text old_text new_text (-1))) := by
      cases preserve
      · simpa using replaceTextBlock_trace n b _ hb
      · simpa using replaceTextBlock_some_trace n b _ hb
    by_cases hmod : pyReplace b.text old_text new_text (-1) = b.text
    · simp only [List.foldlM_cons, if_neg (not_not_intro hmod),
        except_pure_bind]
      rw [ih k cmds (fun x hx => hpage x (by simp [hx]))]
      simp [List.filter_cons, hmod]
    · simp only [List.foldlM_cons, if_pos hmod]
      rw [hrepl, except_ok_bind, except_pure_bind]
      rw [ih (k + 1) (cmds ++ replaceTrace b
        (pyReplace b.text old_text new_text (-1)))
        (fun x hx => hpage x (by simp [hx]))]
      have hf : (pyReplace b.text old_text new_text (-1) != b.text) = true := by
        simpa using hmod
      simp only [List.filter_cons, hf, eq_self_iff_true, if_true,
        List.length_cons, List.map_cons, List.flatten_cons,
        List.append_assoc]
      congr 2
      omega

/-- C4 (amended): `replace_text` selects exactly the blocks whose text
contains `old` as a case-insensitive substring (in mapper scan order),
replaces every occurrence of `old` case-sensitively inside each selected
block's text, counts and re-renders only the blocks whose text actually
changed, and the re-render style is resolved from the block itself whether
or not `preserve_style` is set (with `preserve_style = False` the editor
passes no options and the renderer falls back to `from_text_block`, so the
flag has no observable effect); `TextModifier.replace_text` with unbounded
count replaces all occurrences and with count 1 only the first. -/
theorem C4_replace_text :
    (∀ (st : MapperState) (q : String) (p : Nat),
        findBlocksByText st q (some p) =
          (pageBlocks st p).filter
            (fun b => strContains (pyLower b.text) (pyLower q))) ∧
    (∀ (st : MapperState) (q : String),
        findBlocksByText st q none =
          (allBlocks st).filter
            (fun b => strContains (pyLower b.text) (pyLower q))) ∧
    (∀ (st : MapperState) (n : Nat) (old_text new_text : String)
        (pg : Option Nat) (preserve : Bool),
        (∀ b ∈ findBlocksByText st old_text pg, b.page_number < n) →
        editorReplaceText st n old_text new_text pg preserve =
          .ok
            (((findBlocksByText st old_text pg).filter
              (fun b => pyReplace b.text old_text new_text (-1) !=
                b.text)).length,
             (((findBlocksByText st old_text pg).filter
              (fun b => pyReplace b.text old_text new_text (-1) !=
                b.text)).map
                (fun b => replaceTrace b
                  (pyReplace b.text old_text new_text (-1)))).flatten)) ∧
    (∀ (st : MapperState) (n : Nat) (old_text new_text : String)
        (pg : Option Nat),
        editorReplaceText st n old_text new_text pg false =
          editorReplaceText st n old_text new_text pg true) ∧
    textModifierReplaceText "Hello world, world" "world" "Python" (-1) =
      "Hello Python, Python" ∧
    textModifierReplaceText "Hello world, world" "world" "Python" 1 =
      "Hello Python, world" := by
  refine ⟨fun st q p => ?_, fun st q => ?_, fun st n old_text new_text pg
      preserve h => ?_, fun st n old_text new_text pg => rfl, by decide,
      by decide⟩
  · show ((getRegions st p).map
        (fun r => r.text_blocks.filter
          (fun b => strContains (pyLower b.text) (pyLower q)))).flatten =
      (pageBlocks st p).filter
        (fun b => strContains (pyLower b.text) (pyLower q))
    unfold pageBlocks
    conv_rhs => rw [filterFlatten, List.map_map]
    rfl
  · show ((st.map Prod.fst).map
        (fun p => ((getRegions st p).map
          (fun r => r.text_blocks.filter
            (fun b => strContains (pyLower b.text) (pyLower q)))).flatten)).flatten =
      (allBlocks st).filter
        (fun b => strContains (pyLower b.text) (pyLower q))
    unfold allBlocks
    conv_rhs => rw [filterFlatten, List.map_map]
    refine congrArg List.flatten (List.map_congr_left fun p _ => ?_)
    simp only [Function.comp_apply]
    unfold pageBlocks
    conv_rhs => rw [filterFlatten, List.map_map]
    rfl
  · unfold editorReplaceText
    rw [editorReplaceFold n old_text new_text preserve
      (findBlocksByText st old_text pg) 0 [] h]
    simp

/-- The styled block of the C4 counterexample and witness. -/
def timesBlock : TextBlock :=
  ⟨"world", 72, 100, 150, 115, "TimesNewRomanPSMT", 20, 0, (0, 0, 0), 0, 0, 0⟩

/-- A one-page mapper holding only `timesBlock`. -/
def c4State : MapperState := [(0, [⟨72, 100, 150, 115, 0, [timesBlock]⟩])]

/-- C4 counterexample: with `preserve_style = False`, the re-render of a
20pt TimesNewRoman block uses font "times" at size 20 — the block's own
style, resolved by the renderer's fallback — not the default style
("helv", 12) the claim prescribes. -/
theorem C4_counterexample :
    editorReplaceText c4State 1 "world" "hi" none false =
      .ok (1, [.drawRect 0 (72, 100, 150, 115) (1, 1, 1) (1, 1, 1) false,
               .insertText 0 (72, (100 : ℚ) + 20) "hi" "times" 20 (0, 0, 0)
                 true]) ∧
    ("times" : String) ≠ "helv" ∧ ((20 : ℚ) ≠ 12) := by
  refine ⟨rfl, by decide, by decide⟩

/-- C4 witness: the loop characterization applied to the concrete one-block
mapper (with `preserve_style = True`). -/
theorem C4_replace_text_witness :
    editorReplaceText c4State 1 "world" "hi" none true =
      .ok
        (((findBlocksByText c4State "world" none).filter
          (fun b => pyReplace b.text "world" "hi" (-1) != b.text)).length,
         (((findBlocksByText c4State "world" none).filter
          (fun b => pyReplace b.text "world" "hi" (-1) != b.text)).map
            (fun b => replaceTrace b
              (pyReplace b.text "world" "hi" (-1)))).flatten) :=
  C4_replace_text.2.2.1 c4State 1 "world" "hi" none true (by decide)

end Pdf
